import Mathlib

/-!
Shallow embedding of the client-side form-validation and autosave subsystem
of `static/js/main.js` (Rentz). DOM input elements are modelled by `Field`,
forms by `Form`, the whole document by a list of forms, and the
origin-scoped `localStorage` by an association list from keys to strings.
Browser built-ins used by the code (`String.prototype.trim`,
`String.prototype.replace` with a string pattern, the two regex literals,
`parseFloat`, `JSON.stringify`/`JSON.parse` on flat string-to-string
objects) are modelled by executable Lean functions next to the functions
that call them. Finite JavaScript numbers are modelled as exact rationals
(IEEE rounding of decimal literals is elided; it never changes the
sign tests performed by the code on the inputs considered here).
-/

namespace Rentz

/-- A DOM input element as observed by `main.js`: its `name` and `id`
attributes, its `type`, its current string `value`, and whether it carries
the `required` attribute. -/
structure Field where
  name : String
  id : String
  type : String
  value : String
  required : Bool
deriving DecidableEq

/-- A form: the list of its input/textarea/select elements in document order. -/
structure Form where
  fields : List Field
deriving DecidableEq

/-- The document: its forms in document order. -/
abbrev Doc := List Form

/-- All fields of the document in document order. -/
def docFields (doc : Doc) : List Field :=
  doc.foldr (fun fm acc => fm.fields ++ acc) []

/-- Models `document.querySelector('[name="n"]')` as used at
`main.js:305`: the first element with attribute `name = n` anywhere in the
document (not scoped to any particular form). -/
def querySelectorName (doc : Doc) (n : String) : Option Field :=
  (docFields doc).find? (fun f => f.name == n)

/-- Models `form.querySelector('[name="k"]')`: first matching field of the form. -/
def findField (fm : Form) (k : String) : Option Field :=
  fm.fields.find? (fun f => f.name == k)

/-- Models `String.prototype.trim`: strip whitespace from both ends. -/
def jsTrim (s : String) : String :=
  String.mk (((s.toList.dropWhile Char.isWhitespace).reverse.dropWhile
    Char.isWhitespace).reverse)

/-- Helper for `jsReplaceFirst`: rewrite the first occurrence of `p` to `q`. -/
def replaceFirstCharAux (p q : Char) : List Char → List Char
  | [] => []
  | c :: r => if c = p then q :: r else c :: replaceFirstCharAux p q r

/-- Models `str.replace('_', ' ')` at `main.js:273`: JavaScript `replace`
with a string pattern rewrites only the FIRST occurrence of the pattern. -/
def jsReplaceFirst (s : String) (p q : Char) : String :=
  String.mk (replaceFirstCharAux p q s.toList)

/-- Split a character list at the first occurrence of `ch`; `none` when
`ch` does not occur. -/
def splitAtFirst (ch : Char) : List Char → Option (List Char × List Char)
  | [] => none
  | c :: r =>
    if c = ch then some ([], r)
    else (splitAtFirst ch r).map (fun pr => (c :: pr.1, pr.2))

/-- A character admitted by the regex character class used in the email
pattern: anything that is neither whitespace nor an at-sign. -/
def isAtomChar (c : Char) : Bool := !c.isWhitespace && c != '@'

/-- Models the test of the email regex at `main.js:279`.  A string matches
exactly when it decomposes as `a ++ "@" ++ b ++ "." ++ c` with `a`, `b`,
`c` nonempty sequences of atom characters.  Since no part may contain an
at-sign, the split at the first at-sign is the only candidate, and the
existence of the `b`/`c` split is equivalent to the tail containing a dot
that is neither its first nor its last character (a dot is itself an atom
character, so `b` and `c` may contain further dots). -/
def emailMatch (s : String) : Bool :=
  match splitAtFirst '@' s.toList with
  | none => false
  | some (a, t) =>
    !a.isEmpty && a.all isAtomChar && t.all isAtomChar &&
      ((t.drop 1).dropLast).contains '.'

/-- Models the test of the phone regex at `main.js:288`: exactly ten
digits, the first in the range six to nine. -/
def phoneMatch (s : String) : Bool :=
  match s.toList with
  | [] => false
  | c :: rest =>
    (decide ('6' ≤ c) && decide (c ≤ '9')) && rest.length == 9 &&
      rest.all Char.isDigit

/-- Numeric value of a digit string, most significant digit first. -/
def digitsVal (ds : List Char) : Nat :=
  ds.foldl (fun a c => a * 10 + (c.toNat - 48)) 0

/-- A JavaScript number as produced by `parseFloat`, with `NaN`
represented by `none` at the use sites; finite values are exact
rationals. -/
inductive JsNum where
  | num (q : ℚ)
  | inf
  | negInf
deriving DecidableEq

/-- Models `parseFloat` (ECMA StrDecimalLiteral, longest valid prefix):
optional sign, then either the literal `Infinity` or decimal digits with
optional fraction and optional exponent; `none` models `NaN`. -/
def jsParseFloat (s : String) : Option JsNum :=
  let cs := s.toList
  let sgncs : Bool × List Char :=
    match cs with
    | '-' :: r => (true, r)
    | '+' :: r => (false, r)
    | _ => (false, cs)
  let neg := sgncs.1
  let cs1 := sgncs.2
  if cs1.take 8 = "Infinity".toList then
    some (if neg then JsNum.negInf else JsNum.inf)
  else
    let ipr := cs1.span Char.isDigit
    let ip := ipr.1
    let fpr : List Char × List Char :=
      match ipr.2 with
      | '.' :: r => r.span Char.isDigit
      | _ => ([], ipr.2)
    let fp := fpr.1
    if ip = [] ∧ fp = [] then none
    else
      let ex : Int :=
        match fpr.2 with
        | c :: rest =>
          if c = 'e' ∨ c = 'E' then
            let esr : Bool × List Char :=
              match rest with
              | '-' :: r => (true, r)
              | '+' :: r => (false, r)
              | _ => (false, rest)
            let ed := (esr.2.span Char.isDigit).1
            if ed = [] then 0
            else if esr.1 then -(digitsVal ed : Int) else (digitsVal ed : Int)
          else 0
        | [] => 0
      let mag : ℚ := ((digitsVal (ip ++ fp) : ℚ) / (10 : ℚ) ^ fp.length) * (10 : ℚ) ^ ex
      some (JsNum.num (if neg then -mag else mag))

/-- Models `isNaN(price) || price <= 0` at `main.js:315`, where
`price = parseFloat(value)`. -/
def priceInvalid (value : String) : Bool :=
  match jsParseFloat value with
  | none => true
  | some (JsNum.num q) => decide (q ≤ 0)
  | some JsNum.inf => false
  | some JsNum.negInf => true

/-- Models the password-confirmation test at `main.js:305-306`: look up
the first element named `password1` in the whole document; when present,
compare the (trimmed) `password2` value against its RAW value; when
absent, the comparison is skipped. -/
def password2Mismatch (doc : Doc) (value : String) : Bool :=
  match querySelectorName doc "password1" with
  | some p1 => value != p1.value
  | none => false

/-- Models `validateField` (`main.js:265-328`).  Each check is an
independent `if` on the trimmed value; a failing check overwrites both the
flag and the message, so all checks run and a later failing check
supersedes an earlier one.  The returned pair is `(isValid, errorMessage)`
as a `ValidationResult`. -/
structure ValidationResult where
  isValid : Bool
  errorMessage : String
deriving DecidableEq

def validateField (doc : Doc) (field : Field) : ValidationResult :=
  let value := jsTrim field.value
  let fieldName := if field.name ≠ "" then field.name else field.id
  let r1 : Bool × String :=
    if field.required = true ∧ value = "" then
      (false, jsReplaceFirst fieldName '_' ' ' ++ " is required")
    else (true, "")
  let r2 :=
    if field.type = "email" ∧ value ≠ "" ∧ emailMatch value = false then
      (false, "Please enter a valid email address")
    else r1
  let r3 :=
    if field.name = "phone_number" ∧ value ≠ "" ∧ phoneMatch value = false then
      (false, "Please enter a valid 10-digit mobile number")
    else r2
  let r4 :=
    if field.name = "password1" ∧ value ≠ "" ∧ value.length < 8 then
      (false, "Password must be at least 8 characters long")
    else r3
  let r5 :=
    if field.name = "password2" ∧ value ≠ "" ∧ password2Mismatch doc value = true then
      (false, "Passwords do not match")
    else r4
  let r6 :=
    if field.name = "price_per_day" ∧ value ≠ "" ∧ priceInvalid value = true then
      (false, "Please enter a valid price")
    else r5
  ⟨r6.1, r6.2⟩

/-- The messages of the failing rules, in the order the six rules appear
in `validateField`.  This is the specification-side rule table used to
characterise `validateField`: the field is valid exactly when the list is
empty, and the reported message is the LAST element (the empty string when
none fails). -/
def ruleMsgs (doc : Doc) (field : Field) : List String :=
  let value := jsTrim field.value
  let fieldName := if field.name ≠ "" then field.name else field.id
  (if field.required = true ∧ value = "" then
      [jsReplaceFirst fieldName '_' ' ' ++ " is required"] else []) ++
  (if field.type = "email" ∧ value ≠ "" ∧ emailMatch value = false then
      ["Please enter a valid email address"] else []) ++
  (if field.name = "phone_number" ∧ value ≠ "" ∧ phoneMatch value = false then
      ["Please enter a valid 10-digit mobile number"] else []) ++
  (if field.name = "password1" ∧ value ≠ "" ∧ value.length < 8 then
      ["Password must be at least 8 characters long"] else []) ++
  (if field.name = "password2" ∧ value ≠ "" ∧ password2Mismatch doc value = true then
      ["Passwords do not match"] else []) ++
  (if field.name = "price_per_day" ∧ value ≠ "" ∧ priceInvalid value = true then
      ["Please enter a valid price"] else [])

/-- Last element of a message list, the empty string when there is none. -/
def lastMsg : List String → String
  | [] => ""
  | [m] => m
  | _ :: m :: r => lastMsg (m :: r)

/-- Models the whole-form check of the submit listener installed by
`initFormValidation` (`main.js:248-256`): every field is validated, the
form is valid only if all are. -/
def formValid (doc : Doc) (fm : Form) : Bool :=
  fm.fields.all (fun f => (validateField doc f).isValid)

/-! ## Error annotation state (`showFieldError` / `clearFieldError`) -/

/-- The error-annotation state of one field: whether the input carries the
`error` CSS class, and the `.field-error` sibling nodes currently present
in the field's immediate container, in DOM order (each recorded by its
message). -/
structure ErrState where
  hasErrorClass : Bool
  errors : List String
deriving DecidableEq

/-- Models `clearFieldError` (`main.js:341-347`): drop the `error` class
and remove the FIRST `.field-error` node of the container if one exists
(`querySelector` returns the first match); a no-op on the node list when
none exists. -/
def clearFieldError (s : ErrState) : ErrState :=
  ⟨false, s.errors.tail⟩

/-- Models `showFieldError` (`main.js:330-339`): first `clearFieldError`,
then add the `error` class and append a fresh `.field-error` node carrying
the message to the container. -/
def showFieldError (s : ErrState) (msg : String) : ErrState :=
  let s1 := clearFieldError s
  ⟨true, s1.errors ++ [msg]⟩

/-- One call against a field's annotation state. -/
inductive FieldOp where
  | showErr (msg : String)
  | clearErr
deriving DecidableEq

def applyFieldOp (s : ErrState) : FieldOp → ErrState
  | FieldOp.showErr m => showFieldError s m
  | FieldOp.clearErr => clearFieldError s

def applyFieldOps (s : ErrState) (ops : List FieldOp) : ErrState :=
  ops.foldl applyFieldOp s

/-! ## The persistent store and the autosave payload codec -/

/-- `localStorage`: a string-keyed, string-valued store, modelled as an
association list with at most one live entry per key. -/
abbrev Storage := List (String × String)

/-- Models `localStorage.getItem`. -/
def storeGet (st : Storage) (k : String) : Option String :=
  (st.find? (fun e => e.1 == k)).map (fun e => e.2)

/-- Models `localStorage.setItem`: replace any prior value for the key. -/
def storeSet (st : Storage) (k v : String) : Storage :=
  (st.filter (fun e => e.1 != k)) ++ [(k, v)]

/-- Models `localStorage.removeItem`. -/
def storeRemove (st : Storage) (k : String) : Storage :=
  st.filter (fun e => e.1 != k)

/-- The autosave payload: field names mapped to string values, in
JavaScript object insertion order. -/
abbrev Payload := List (String × String)

/-- Models assignment `data[key] = value` on a plain JavaScript object:
an existing key keeps its position and gets the new value, a fresh key is
appended. -/
def objSet : Payload → String → String → Payload
  | [], k, v => [(k, v)]
  | (k', v') :: rest, k, v =>
    if k' == k then (k', v) :: rest else (k', v') :: objSet rest k v

/-- Escape a character sequence for a JSON string literal.  The code's
payload values are form field strings; `JSON.stringify` escapes the quote
and the backslash (control characters, which it also escapes, are elided
here: the parse of the stringified form restores the original value either
way). -/
def escapeChars : List Char → List Char
  | [] => []
  | c :: r =>
    if c = '"' ∨ c = '\\' then '\\' :: c :: escapeChars r
    else c :: escapeChars r

/-- A JSON string literal for `s`, quotes included. -/
def quoteStr (s : String) : List Char :=
  '"' :: (escapeChars s.toList ++ ['"'])

/-- The comma-separated `"key":"value"` entries of a payload. -/
def encodeEntries : Payload → List Char
  | [] => []
  | [(k, v)] => quoteStr k ++ ':' :: quoteStr v
  | (k, v) :: kv2 :: rest =>
    quoteStr k ++ ':' :: (quoteStr v ++ ',' :: encodeEntries (kv2 :: rest))

/-- Models `JSON.stringify` on a flat string-to-string object
(`main.js:493`). -/
def encodePayload (p : Payload) : String :=
  String.mk ('{' :: (encodeEntries p ++ ['}']))

/-- Parse the body of a JSON string literal (the opening quote already
consumed): stop at the closing quote, take the character after each
backslash literally. -/
def parseStringBody : List Char → Option (List Char × List Char)
  | [] => none
  | c :: r =>
    if c = '"' then some ([], r)
    else if c = '\\' then
      match r with
      | [] => none
      | c2 :: r2 => (parseStringBody r2).map (fun pr => (c2 :: pr.1, pr.2))
    else (parseStringBody r).map (fun pr => (c :: pr.1, pr.2))

/-- Parse the `"key":"value"` entries of a payload object up to and
including the closing brace; the `Nat` argument is recursion fuel (one
unit per entry suffices). -/
def parseEntries : Nat → List Char → Option (Payload × List Char)
  | 0, _ => none
  | fuel + 1, cs =>
    match cs with
    | '"' :: cs1 =>
      match parseStringBody cs1 with
      | some (k, ':' :: '"' :: cs2) =>
        match parseStringBody cs2 with
        | some (v, '}' :: rest) => some ([(String.mk k, String.mk v)], rest)
        | some (v, ',' :: rest) =>
          match parseEntries fuel rest with
          | some (p, rest2) => some ((String.mk k, String.mk v) :: p, rest2)
          | none => none
        | _ => none
      | _ => none
    | _ => none

/-- Models `JSON.parse` (`main.js:502`) restricted to the flat
string-to-string objects the autosave subsystem stores; any other input is
a parse failure, modelling the thrown `SyntaxError`. -/
def decodePayload (s : String) : Option Payload :=
  match s.toList with
  | '{' :: '}' :: rest => if rest.isEmpty then some [] else none
  | '{' :: cs =>
    match parseEntries cs.length cs with
    | some (p, rest) => if rest.isEmpty then some p else none
    | none => none
  | _ => none

/-! ## The autosave operations (`initAutoSave` and helpers) -/

/-- The `FormData(form)` entry list: one `(name, value)` pair per named
field, in form order (checkedness of radio/checkbox inputs and the File
objects of file inputs are not distinguished: the code filters file fields
out by element type before serialising, see `saveFormData`). -/
def formEntries (fm : Form) : Payload :=
  (fm.fields.filter (fun f => f.name != "")).map (fun f => (f.name, f.value))

/-- The filter at `main.js:488`: an entry is kept when the FIRST element
of the form carrying its name is not a file input (the code dereferences
`form.querySelector(...)` without a null check; the key always names a
field, so the lookup cannot miss). -/
def fileOk (fm : Form) (k : String) : Bool :=
  match findField fm k with
  | some g => g.type != "file"
  | none => false

/-- Loop body of `saveFormData`'s entry loop (`main.js:487-491`): keep the
entry (as an object assignment) when its field is not a file input. -/
def autosaveStep (fm : Form) (d : Payload) (kv : String × String) : Payload :=
  if fileOk fm kv.1 then objSet d kv.1 kv.2 else d

/-- The `data` object built by `saveFormData` (`main.js:483-492`). -/
def autosaveData (fm : Form) : Payload :=
  (formEntries fm).foldl (autosaveStep fm) []

/-- Models `saveFormData` (`main.js:483-495`): serialise the filtered
entries and overwrite the stored payload under `"form_" + formId`. -/
def saveFormData (fm : Form) (formId : String) (st : Storage) : Storage :=
  storeSet st ("form_" ++ formId) (encodePayload (autosaveData fm))

/-- Set the value of the first field named `k`. -/
def setFirstValue : List Field → String → String → List Field
  | [], _, _ => []
  | f :: rest, k, v =>
    if f.name == k then { f with value := v } :: rest
    else f :: setFirstValue rest k v

def setFieldValue (fm : Form) (k v : String) : Form :=
  ⟨setFirstValue fm.fields k v⟩

/-- Models `loadFormData` (`main.js:497-518`): read the stored payload for
the form; when present and parseable, set each payload value onto the
form's first field of that name, skipping absent fields and falsy (empty)
values; when the parse fails, the `catch` logs and the form is left
untouched. -/
def loadFormData (fm : Form) (formId : String) (st : Storage) : Form :=
  match storeGet st ("form_" ++ formId) with
  | none => fm
  | some savedData =>
    match decodePayload savedData with
    | none => fm
    | some data =>
      data.foldl
        (fun acc kv =>
          match findField acc kv.1 with
          | some _ => if kv.2 != "" then setFieldValue acc kv.1 kv.2 else acc
          | none => acc) fm

/-- Models `clearFormData` (`main.js:520-523`). -/
def clearFormData (formId : String) (st : Storage) : Storage :=
  storeRemove st ("form_" ++ formId)

/-! ## The submit event on a validated, autosave-bound form -/

/-- Outcome of dispatching one `submit` event. -/
structure SubmitResult where
  defaultPrevented : Bool
  storage : Storage
deriving DecidableEq

/-- One `submit` event on a form bound by both `initFormValidation` and
`initAutoSave`.  `initFormEnhancements` registers the validation listener
before the autosave listener, and `preventDefault` cancels only the
default action, never the remaining listeners of the same event, so the
autosave listener's `clearFormData` runs unconditionally after the
validation listener. -/
def dispatchSubmit (doc : Doc) (fm : Form) (formId : String) (st : Storage) :
    SubmitResult :=
  let prevented := !formValid doc fm
  ⟨prevented, clearFormData formId st⟩

/-! ## Storage lemmas -/

theorem storeGet_storeRemove (st : Storage) (k : String) :
    storeGet (storeRemove st k) k = none := by
  induction st with
  | nil => rfl
  | cons a t ih =>
    by_cases h : a.1 = k
    · simp only [storeRemove, storeGet, List.filter_cons] at ih ⊢
      simp [h, ih]
    · simp only [storeRemove, storeGet, List.filter_cons] at ih ⊢
      simp [h, List.find?_cons, ih]

theorem storeGet_storeSet (st : Storage) (k v : String) :
    storeGet (storeSet st k v) k = some v := by
  induction st with
  | nil => simp [storeSet, storeGet]
  | cons a t ih =>
    by_cases h : a.1 = k
    · simp only [storeSet, storeGet, List.filter_cons] at ih ⊢
      simp [h, ih]
    · simp only [storeSet, storeGet, List.filter_cons] at ih ⊢
      simp [h, List.find?_cons, ih]

/-! ## Error-annotation lemmas -/

theorem applyFieldOp_err_le (s : ErrState) (op : FieldOp)
    (h : s.errors.length ≤ 1) : (applyFieldOp s op).errors.length ≤ 1 := by
  cases op with
  | showErr m =>
    simp only [applyFieldOp, showFieldError, clearFieldError, List.length_append,
      List.length_tail, List.length_cons, List.length_nil]
    omega
  | clearErr =>
    simp only [applyFieldOp, clearFieldError, List.length_tail]
    omega

theorem applyFieldOps_err_le (ops : List FieldOp) :
    ∀ s : ErrState, s.errors.length ≤ 1 →
      (applyFieldOps s ops).errors.length ≤ 1 := by
  induction ops with
  | nil => intro s h; exact h
  | cons op t ih => intro s h; exact ih _ (applyFieldOp_err_le s op h)

theorem clearFieldError_idem (s : ErrState) (hs : s.errors.length ≤ 1) :
    clearFieldError (clearFieldError s) = clearFieldError s := by
  obtain ⟨b, l⟩ := s
  match l with
  | [] => rfl
  | [a] => rfl
  | a :: b2 :: t2 => simp at hs

/-! ## Claim theorems -/

/-- C5: on the submit event of an autosave-bound form the stored payload
for the form's `formId` is deleted unconditionally — in particular the key
is gone even when whole-form validation fails and the validation listener
(registered first) calls `preventDefault` on the same event, since
`preventDefault` does not stop the remaining listeners. -/
theorem submit_always_clears_autosave (doc : Doc) (fm : Form)
    (formId : String) (st : Storage) :
    storeGet (dispatchSubmit doc fm formId st).storage ("form_" ++ formId) = none ∧
    (dispatchSubmit doc fm formId st).defaultPrevented = !formValid doc fm :=
  ⟨storeGet_storeRemove st _, rfl⟩

/-- C7: when the stored autosave string for a form fails to parse,
`loadFormData` catches locally and leaves the form unchanged — it never
propagates the error and rehydrates nothing. -/
theorem malformed_autosave_skipped (fm : Form) (formId : String)
    (st : Storage) (s : String)
    (hget : storeGet st ("form_" ++ formId) = some s)
    (hbad : decodePayload s = none) :
    loadFormData fm formId st = fm := by
  unfold loadFormData
  rw [hget]
  simp [hbad]

/-- Witness for `malformed_autosave_skipped` at a concrete corrupt store. -/
theorem malformed_autosave_skipped_witness :
    loadFormData ⟨[⟨"name", "", "text", "x", false⟩]⟩ "draft"
        [("form_draft", "oops")] = ⟨[⟨"name", "", "text", "x", false⟩]⟩ :=
  malformed_autosave_skipped ⟨[⟨"name", "", "text", "x", false⟩]⟩ "draft"
    [("form_draft", "oops")] "oops" (by decide) (by decide)

/-- C9: starting from a field with no error annotation, any sequence of
`showFieldError`/`clearFieldError` calls leaves at most one error node in
the field's container, and `clearFieldError` is idempotent (a no-op on an
already-clear field). -/
theorem error_annotation_discipline (ops : List FieldOp) (s0 s : ErrState)
    (h0 : s0.errors = []) (hs : s.errors.length ≤ 1) :
    (applyFieldOps s0 ops).errors.length ≤ 1 ∧
    clearFieldError (clearFieldError s) = clearFieldError s :=
  ⟨applyFieldOps_err_le ops s0 (by simp [h0]), clearFieldError_idem s hs⟩

/-- Witness for `error_annotation_discipline` on a concrete call sequence. -/
theorem error_annotation_discipline_witness :
    (applyFieldOps ⟨false, []⟩
        [FieldOp.showErr "a", FieldOp.showErr "b", FieldOp.clearErr,
          FieldOp.clearErr]).errors.length ≤ 1 ∧
    clearFieldError (clearFieldError ⟨true, ["a"]⟩) = clearFieldError ⟨true, ["a"]⟩ :=
  error_annotation_discipline
    [FieldOp.showErr "a", FieldOp.showErr "b", FieldOp.clearErr, FieldOp.clearErr]
    ⟨false, []⟩ ⟨true, ["a"]⟩ rfl (by decide)

/-- C4 counterexample: JavaScript `replace` with a string pattern rewrites
only the first occurrence, so the required-field message for
`price_per_day` is `"price per_day is required"`, not
`"price per day is required"` as the claim states. -/
theorem required_message_keeps_later_underscores :
    (validateField [] ⟨"price_per_day", "", "number", "", true⟩).errorMessage
        = "price per_day is required" ∧
    "price per_day is required" ≠ "price per day is required" := by decide

/-- C4 amended: a required field whose trimmed value is empty fails with
`"<field name> is required"`, where the field name (the `name` attribute,
falling back to `id`) has only its FIRST underscore replaced by a space. -/
theorem required_empty_message (doc : Doc) (f : Field)
    (hreq : f.required = true) (hval : jsTrim f.value = "") :
    validateField doc f =
      ⟨false, jsReplaceFirst (if f.name ≠ "" then f.name else f.id) '_' ' '
        ++ " is required"⟩ := by
  simp [validateField, hreq, hval]

/-- Witness for `required_empty_message` at a concrete required field. -/
theorem required_empty_message_witness :
    validateField [] ⟨"price_per_day", "", "number", "", true⟩ =
      ⟨false, "price per_day is required"⟩ :=
  (required_empty_message [] ⟨"price_per_day", "", "number", "", true⟩
    rfl rfl).trans (by decide)

/-- C1 counterexample: on a field whose type is `email` and whose name is
`price_per_day`, with value `"abc"`, both the email rule and the price
rule fail; `validateField` reports the message of the LATER rule, not of
the earliest failing one, because every check runs and overwrites the
message of the previous failing check. -/
theorem first_failing_rule_does_not_win :
    ruleMsgs [] ⟨"price_per_day", "", "email", "abc", false⟩ =
      ["Please enter a valid email address", "Please enter a valid price"] ∧
    (validateField [] ⟨"price_per_day", "", "email", "abc", false⟩).errorMessage =
      "Please enter a valid price" := by decide

/-- C1 amended: `validateField` applies the six rules in the fixed order
but does not short-circuit: every applicable rule is evaluated, the field
is valid exactly when no rule fails, and the reported message is that of
the LAST failing rule in the order (the empty string when none fails). -/
theorem validateField_last_failing_rule (doc : Doc) (f : Field) :
    validateField doc f =
      ⟨(ruleMsgs doc f).isEmpty, lastMsg (ruleMsgs doc f)⟩ := by
  simp only [validateField, ruleMsgs]
  split_ifs <;> simp [lastMsg]

/-- C2 counterexample: the `password1` used by the confirmation check is
found with `document.querySelector`, i.e. it is the first element named
`password1` of the WHOLE DOCUMENT, not of the same form.  Here the second
form's `password2` equals that same form's `password1` (`"other123"`), yet
validation fails because the first form's `password1` (`"secret99"`) is
compared instead. -/
theorem password2_checked_against_document_not_form :
    querySelectorName
        [⟨[⟨"password1", "", "password", "secret99", false⟩]⟩,
         ⟨[⟨"password1", "", "password", "other123", false⟩,
           ⟨"password2", "", "password", "other123", false⟩]⟩] "password1"
      = some ⟨"password1", "", "password", "secret99", false⟩ ∧
    validateField
        [⟨[⟨"password1", "", "password", "secret99", false⟩]⟩,
         ⟨[⟨"password1", "", "password", "other123", false⟩,
           ⟨"password2", "", "password", "other123", false⟩]⟩]
        ⟨"password2", "", "password", "other123", false⟩
      = ⟨false, "Passwords do not match"⟩ := by decide

/-- C2 amended: for a field named `password2` with non-empty trimmed value
whose type is not `email` (so no other rule can fire), when an element
named `password1` exists, `validateField` passes the field exactly when
its TRIMMED value equals the raw value of the FIRST element named
`password1` in the DOCUMENT (looked up live at check time); on mismatch it
fails with `"Passwords do not match"`. -/
theorem password2_validation (doc : Doc) (f : Field) (p1 : Field)
    (hname : f.name = "password2") (hval : jsTrim f.value ≠ "")
    (htype : f.type ≠ "email")
    (hp1 : querySelectorName doc "password1" = some p1) :
    (validateField doc f).isValid = (jsTrim f.value == p1.value) ∧
    (jsTrim f.value ≠ p1.value →
      (validateField doc f).errorMessage = "Passwords do not match") := by
  by_cases h : jsTrim f.value = p1.value
  · have hm : password2Mismatch doc (jsTrim f.value) = false := by
      simp [password2Mismatch, hp1, h]
    have hbeq : (jsTrim f.value == p1.value) = true := by simp [h]
    refine ⟨?_, ?_⟩
    · rw [hbeq]; simp [validateField, hname, hval, htype, hm]
    · intro hne; exact absurd h hne
  · have hm : password2Mismatch doc (jsTrim f.value) = true := by
      simp [password2Mismatch, hp1, h]
    have hbeq : (jsTrim f.value == p1.value) = false := by
      simp [h]
    refine ⟨?_, ?_⟩
    · rw [hbeq]; simp [validateField, hname, hval, htype, hm]
    · intro _
      simp [validateField, hname, hval, htype, hm]

/-- Witness for `password2_validation` on a matching concrete pair. -/
theorem password2_validation_witness :
    ((validateField [⟨[⟨"password1", "", "password", "abc12345", false⟩,
          ⟨"password2", "", "password", "abc12345", false⟩]⟩]
        ⟨"password2", "", "password", "abc12345", false⟩).isValid
      = (jsTrim "abc12345" == "abc12345")) ∧
    (jsTrim "abc12345" ≠ "abc12345" →
      (validateField [⟨[⟨"password1", "", "password", "abc12345", false⟩,
            ⟨"password2", "", "password", "abc12345", false⟩]⟩]
          ⟨"password2", "", "password", "abc12345", false⟩).errorMessage
        = "Passwords do not match") :=
  password2_validation
    [⟨[⟨"password1", "", "password", "abc12345", false⟩,
       ⟨"password2", "", "password", "abc12345", false⟩]⟩]
    ⟨"password2", "", "password", "abc12345", false⟩
    ⟨"password1", "", "password", "abc12345", false⟩
    rfl (by decide) (by decide) (by decide)

/-- C3 counterexample: `parseFloat("Infinity")` is positive Infinity, not
`NaN`, and `Infinity <= 0` is false, so the input `"Infinity"` — which
does not parse as a FINITE number — nevertheless passes the price check. -/
theorem price_infinity_passes :
    (validateField [] ⟨"price_per_day", "", "number", "Infinity", false⟩).isValid
      = true ∧
    jsParseFloat "Infinity" = some JsNum.inf := by decide

/-- C3 amended: a field named `price_per_day` with non-empty trimmed value
and non-`email` type passes exactly when `parseFloat` of the trimmed value
yields positive Infinity or a (finite) number strictly greater than zero —
`parseFloat` parses the longest numeric prefix, so `"0"`, `"-5"`, `"abc"`
fail and `"199.99"` passes, but `"Infinity"` passes as well; every failure
carries the message `"Please enter a valid price"`. -/
theorem price_validation (doc : Doc) (f : Field)
    (hname : f.name = "price_per_day") (hval : jsTrim f.value ≠ "")
    (htype : f.type ≠ "email") :
    ((validateField doc f).isValid = true ↔
      jsParseFloat (jsTrim f.value) = some JsNum.inf ∨
        ∃ q : ℚ, 0 < q ∧ jsParseFloat (jsTrim f.value) = some (JsNum.num q)) ∧
    (priceInvalid (jsTrim f.value) = true →
      (validateField doc f).errorMessage = "Please enter a valid price") := by
  have hred : validateField doc f =
      ⟨!priceInvalid (jsTrim f.value),
        if priceInvalid (jsTrim f.value) = true then "Please enter a valid price"
        else ""⟩ := by
    by_cases hp : priceInvalid (jsTrim f.value) = true <;>
      simp [validateField, hname, hval, htype, hp]
  rw [hred]
  constructor
  · cases hpf : jsParseFloat (jsTrim f.value) with
    | none => simp [priceInvalid, hpf]
    | some jn =>
      cases jn with
      | num q =>
        have hpi : priceInvalid (jsTrim f.value) = decide (q ≤ 0) := by
          simp [priceInvalid, hpf]
        rw [hpi]
        constructor
        · intro hq
          have hq' : ¬ q ≤ 0 := by simpa using hq
          exact Or.inr ⟨q, not_le.mp hq', rfl⟩
        · rintro (hinf | ⟨q', hq', he⟩)
          · exact absurd hinf (by simp)
          · have hqq : q' = q := (JsNum.num.inj (Option.some.inj he)).symm
            subst hqq
            simpa using not_le.mpr hq'
      | inf => simp [priceInvalid, hpf]
      | negInf => simp [priceInvalid, hpf]
  · intro hp; simp [hp]

/-- Witness for `price_validation` at `"199.99"`. -/
theorem price_validation_witness :
    (((validateField [] ⟨"price_per_day", "", "number", "199.99", false⟩).isValid
        = true ↔
      jsParseFloat (jsTrim "199.99") = some JsNum.inf ∨
        ∃ q : ℚ, 0 < q ∧ jsParseFloat (jsTrim "199.99") = some (JsNum.num q)) ∧
    (priceInvalid (jsTrim "199.99") = true →
      (validateField [] ⟨"price_per_day", "", "number", "199.99", false⟩).errorMessage
        = "Please enter a valid price")) :=
  price_validation [] ⟨"price_per_day", "", "number", "199.99", false⟩
    rfl (by decide) (by decide)

/-- C10 counterexample: with no `password1` anywhere in the document, a
`password2` field does not always pass — here its type is `email` and its
value is not a valid email address, so validation fails on the email rule
even though the confirmation check is skipped. -/
theorem password2_email_type_fails_without_password1 :
    querySelectorName [⟨[⟨"password2", "", "email", "abc", false⟩]⟩] "password1"
      = none ∧
    (validateField [⟨[⟨"password2", "", "email", "abc", false⟩]⟩]
        ⟨"password2", "", "email", "abc", false⟩).isValid = false := by decide

/-- C10 amended: for a field named `password2` with non-empty trimmed
value whose type is not `email`, if no element named `password1` exists
anywhere in the document, `validateField` passes the field: the
confirmation check is silently skipped rather than failing. -/
theorem password2_skipped_without_password1 (doc : Doc) (f : Field)
    (hname : f.name = "password2") (hval : jsTrim f.value ≠ "")
    (htype : f.type ≠ "email")
    (hq : querySelectorName doc "password1" = none) :
    (validateField doc f).isValid = true := by
  have hm : password2Mismatch doc (jsTrim f.value) = false := by
    simp [password2Mismatch, hq]
  simp [validateField, hname, hval, htype, hm]

/-- Witness for `password2_skipped_without_password1` on an empty document. -/
theorem password2_skipped_without_password1_witness :
    (validateField [] ⟨"password2", "", "password", "whatever1", false⟩).isValid
      = true :=
  password2_skipped_without_password1 []
    ⟨"password2", "", "password", "whatever1", false⟩
    rfl (by decide) (by decide) (by decide)

/-! ## Payload codec round-trip -/

theorem string_mk_toList (s : String) : String.mk s.toList = s := rfl

theorem parseStringBody_escape (s : List Char) :
    ∀ rest, parseStringBody (escapeChars s ++ '"' :: rest) = some (s, rest) := by
  induction s with
  | nil =>
    intro rest
    show parseStringBody ('"' :: rest) = some ([], rest)
    unfold parseStringBody
    rw [if_pos rfl]
  | cons c cr ih =>
    intro rest
    by_cases h : c = '"' ∨ c = '\\'
    · simp [escapeChars, h, parseStringBody, ih]
    · have h1 : ¬ c = '"' := fun hc => h (Or.inl hc)
      have h2 : ¬ c = '\\' := fun hc => h (Or.inr hc)
      have hesc : escapeChars (c :: cr) = c :: escapeChars cr := by
        simp [escapeChars, h]
      rw [hesc, List.cons_append]
      unfold parseStringBody
      rw [if_neg h1, if_neg h2, ih]
      rfl

theorem length_le_length_encodeEntries :
    ∀ p : Payload, p.length ≤ (encodeEntries p).length
  | [] => Nat.le_refl 0
  | [(k, v)] => by
    simp only [encodeEntries, quoteStr, List.length_append, List.length_cons,
      List.length_nil]
    omega
  | (k, v) :: kv2 :: rest => by
    have ih := length_le_length_encodeEntries (kv2 :: rest)
    simp only [encodeEntries, quoteStr, List.length_append, List.length_cons,
      List.length_nil] at ih ⊢
    omega

theorem parseEntries_encodeEntries :
    ∀ (p : Payload) (fuel : Nat) (rest : List Char), p ≠ [] → p.length ≤ fuel →
      parseEntries fuel (encodeEntries p ++ '}' :: rest) = some (p, rest) := by
  intro p
  induction p with
  | nil => intro fuel rest hne _; exact absurd rfl hne
  | cons kv pt ih =>
    intro fuel rest _ hlen
    obtain ⟨k, v⟩ := kv
    cases fuel with
    | zero => simp at hlen
    | succ f =>
      cases pt with
      | nil =>
        simp [encodeEntries, quoteStr, parseEntries, List.append_assoc,
          parseStringBody_escape, string_mk_toList]
      | cons kv2 pt2 =>
        have hne2 : (kv2 :: pt2 : Payload) ≠ [] := by simp
        have hlen2 : (kv2 :: pt2 : Payload).length ≤ f := by
          simp only [List.length_cons] at hlen ⊢
          omega
        simp [encodeEntries, quoteStr, parseEntries, List.append_assoc,
          parseStringBody_escape, string_mk_toList, ih f rest hne2 hlen2]

theorem decodePayload_encodePayload (p : Payload) :
    decodePayload (encodePayload p) = some p := by
  cases p with
  | nil => rfl
  | cons kv pt =>
    obtain ⟨k, v⟩ := kv
    obtain ⟨T, hT⟩ : ∃ T, encodeEntries ((k, v) :: pt) = '"' :: T := by
      cases pt with
      | nil => exact ⟨_, rfl⟩
      | cons kv2 pt2 => exact ⟨_, rfl⟩
    have hfa : encodePayload ((k, v) :: pt) =
        String.mk ('{' :: '"' :: (T ++ ['}'])) := by
      simp [encodePayload, hT]
    have hred : decodePayload (String.mk ('{' :: '"' :: (T ++ ['}']))) =
        (match parseEntries ('"' :: (T ++ ['}'])).length ('"' :: (T ++ ['}'])) with
         | some (q, rest) => if rest.isEmpty then some q else none
         | none => none) := rfl
    have hcs : ('"' :: (T ++ ['}']) : List Char)
        = encodeEntries ((k, v) :: pt) ++ '}' :: [] := by
      rw [hT]; rfl
    rw [hfa, hred, hcs,
      parseEntries_encodeEntries ((k, v) :: pt) _ [] (by simp) ?_]
    · rfl
    · calc ((k, v) :: pt : Payload).length
          ≤ (encodeEntries ((k, v) :: pt)).length := length_le_length_encodeEntries _
        _ ≤ (encodeEntries ((k, v) :: pt) ++ '}' :: []).length := by
            simp

/-! ## Rehydration lemmas -/

theorem find?_setFirstValue (l : List Field) (k v : String) (f0 : Field)
    (h : l.find? (fun f => f.name == k) = some f0) :
    (setFirstValue l k v).find? (fun f => f.name == k)
      = some { f0 with value := v } := by
  induction l with
  | nil => simp at h
  | cons f t ih =>
    by_cases hf : f.name = k
    · simp only [List.find?_cons, hf, beq_self_eq_true, Option.some.injEq] at h
      subst h
      unfold setFirstValue
      rw [if_pos (by simp [hf])]
      simp [List.find?_cons, hf]
    · have hb : (f.name == k) = false := by
        simp [hf]
      simp only [List.find?_cons, hb] at h
      unfold setFirstValue
      rw [if_neg (by simp [hb])]
      simp only [List.find?_cons, hb]
      exact ih h

theorem findField_setFieldValue (fm : Form) (k v : String) (f0 : Field)
    (h : findField fm k = some f0) :
    findField (setFieldValue fm k v) k = some { f0 with value := v } :=
  find?_setFirstValue fm.fields k v f0 h

/-- C6: autosave round-trip.  Saving a one-field form whose (non-file)
field `n` holds the non-empty value `v` under some `formId`, then
rehydrating a fresh form carrying a field named `n` from the same store
under the same `formId`, sets that field's value to `v`. -/
theorem autosave_roundtrip (st : Storage) (formId n v : String) (f2 : Form)
    (hn : n ≠ "") (hv : v ≠ "") (hf : (findField f2 n).isSome) :
    Option.map Field.value
        (findField (loadFormData f2 formId
          (saveFormData ⟨[⟨n, "", "text", v, false⟩]⟩ formId st)) n)
      = some v := by
  obtain ⟨f0, hf0⟩ := Option.isSome_iff_exists.mp hf
  have hdata : autosaveData ⟨[⟨n, "", "text", v, false⟩]⟩ = [(n, v)] := by
    simp [autosaveData, formEntries, autosaveStep, fileOk, findField, objSet, hn]
  have hsave : saveFormData ⟨[⟨n, "", "text", v, false⟩]⟩ formId st
      = storeSet st ("form_" ++ formId) (encodePayload [(n, v)]) := by
    simp only [saveFormData, hdata]
  rw [hsave]
  unfold loadFormData
  rw [storeGet_storeSet]
  simp only [decodePayload_encodePayload, List.foldl, hf0]
  rw [if_pos (by simpa using hv)]
  rw [findField_setFieldValue f2 n v f0 hf0]
  rfl

/-- Witness for `autosave_roundtrip`: the spec's `{name:"Alice"}` example
under formId `"signup"`. -/
theorem autosave_roundtrip_witness :
    Option.map Field.value
        (findField (loadFormData ⟨[⟨"name", "", "text", "", false⟩]⟩ "signup"
          (saveFormData ⟨[⟨"name", "", "text", "Alice", false⟩]⟩ "signup" []))
          "name")
      = some "Alice" :=
  autosave_roundtrip [] "signup" "name" "Alice" ⟨[⟨"name", "", "text", "", false⟩]⟩
    (by decide) (by decide) (by decide)

/-! ## Payload-content lemmas for `saveFormData` -/

theorem mem_objSet (d : Payload) (k v : String) :
    ∀ kv ∈ objSet d k v, kv ∈ d ∨ kv = (k, v) := by
  induction d with
  | nil =>
    intro kv h
    simp only [objSet, List.mem_singleton] at h
    exact Or.inr h
  | cons a t ih =>
    intro kv h
    obtain ⟨k', v'⟩ := a
    by_cases hk : (k' == k) = true
    · have hkk : k' = k := by simpa using hk
      subst hkk
      simp only [objSet, beq_self_eq_true, if_true, List.mem_cons] at h
      rcases h with h | h
      · exact Or.inr h
      · exact Or.inl (List.mem_cons_of_mem _ h)
    · simp only [objSet, hk, if_false] at h
      cases h with
      | head => exact Or.inl (List.mem_cons_self _ _)
      | tail _ h1 =>
        rcases ih kv h1 with h2 | h2
        · exact Or.inl (List.mem_cons_of_mem _ h2)
        · exact Or.inr h2

theorem exists_mem_objSet_self (d : Payload) (k v : String) :
    ∃ w, (k, w) ∈ objSet d k v := by
  induction d with
  | nil => exact ⟨v, by simp [objSet]⟩
  | cons a t ih =>
    obtain ⟨k', v'⟩ := a
    by_cases hk : (k' == k) = true
    · have hkk : k' = k := by simpa using hk
      subst hkk
      exact ⟨v, by simp [objSet]⟩
    · obtain ⟨w, hw⟩ := ih
      exact ⟨w, by simp [objSet, hk, hw]⟩

theorem mem_objSet_of_mem (d : Payload) (k v : String) (kv : String × String)
    (h : kv ∈ d) : ∃ w, (kv.1, w) ∈ objSet d k v := by
  by_cases hk : kv.1 = k
  · rw [hk]; exact exists_mem_objSet_self d k v
  · refine ⟨kv.2, ?_⟩
    revert h
    induction d with
    | nil => intro h; simp at h
    | cons a t ih =>
      intro h
      obtain ⟨k', v'⟩ := a
      by_cases hkk : (k' == k) = true
      · simp only [objSet, hkk, if_true]
        rcases List.mem_cons.mp h with h1 | h1
        · exfalso
          apply hk
          have hx : kv.1 = k' := by rw [h1]
          rw [hx]
          simpa using hkk
        · exact List.mem_cons_of_mem _ (by simpa using h1)
      · simp only [objSet, hkk, if_false]
        rcases List.mem_cons.mp h with h1 | h1
        · exact List.mem_cons.mpr (Or.inl (by simp [h1]))
        · exact List.mem_cons_of_mem _ (ih h1)

theorem mem_foldl_autosaveStep (fm : Form) :
    ∀ (l d : Payload) (kv : String × String),
      kv ∈ l.foldl (autosaveStep fm) d →
      kv ∈ d ∨ fileOk fm kv.1 = true := by
  intro l
  induction l with
  | nil => intro d kv h; exact Or.inl h
  | cons a t ih =>
    intro d kv h
    rcases ih (autosaveStep fm d a) kv h with h1 | h1
    · unfold autosaveStep at h1
      by_cases hfo : fileOk fm a.1 = true
      · rw [if_pos hfo] at h1
        rcases mem_objSet _ _ _ kv h1 with h2 | h2
        · exact Or.inl h2
        · right; rw [h2]; exact hfo
      · rw [if_neg hfo] at h1
        exact Or.inl h1
    · exact Or.inr h1

theorem exists_mem_foldl_autosaveStep_acc (fm : Form) :
    ∀ (l d : Payload) (k0 : String), (∃ w, (k0, w) ∈ d) →
      ∃ w, (k0, w) ∈ l.foldl (autosaveStep fm) d := by
  intro l
  induction l with
  | nil => intro d k0 h; exact h
  | cons a t ih =>
    intro d k0 h
    refine ih (autosaveStep fm d a) k0 ?_
    unfold autosaveStep
    by_cases hfo : fileOk fm a.1 = true
    · rw [if_pos hfo]
      obtain ⟨w, hw⟩ := h
      exact mem_objSet_of_mem d a.1 a.2 (k0, w) hw
    · rw [if_neg hfo]
      exact h

theorem exists_mem_foldl_autosaveStep (fm : Form) :
    ∀ (l d : Payload) (k0 w0 : String), (k0, w0) ∈ l → fileOk fm k0 = true →
      ∃ w, (k0, w) ∈ l.foldl (autosaveStep fm) d := by
  intro l
  induction l with
  | nil => intro d k0 w0 h _; simp at h
  | cons a t ih =>
    intro d k0 w0 h hfo
    rcases List.mem_cons.mp h with h1 | h1
    · refine exists_mem_foldl_autosaveStep_acc fm t (autosaveStep fm d a) k0 ?_
      rw [← h1]
      unfold autosaveStep
      rw [if_pos (by simpa using hfo)]
      exact exists_mem_objSet_self d k0 w0
    · exact ih (autosaveStep fm d a) k0 w0 h1 hfo

theorem autosaveData_only_nonfile (fm : Form) (kv : String × String)
    (h : kv ∈ autosaveData fm) : fileOk fm kv.1 = true := by
  rcases mem_foldl_autosaveStep fm (formEntries fm) [] kv h with h1 | h1
  · simp at h1
  · exact h1

theorem autosaveData_collects (fm : Form) (f : Field)
    (hf : f ∈ fm.fields) (hn : f.name ≠ "") (hok : fileOk fm f.name = true) :
    ∃ w, (f.name, w) ∈ autosaveData fm := by
  have hmem : (f.name, f.value) ∈ formEntries fm := by
    simp only [formEntries, List.mem_map]
    exact ⟨f, List.mem_filter.mpr ⟨hf, by simpa using hn⟩, rfl⟩
  exact exists_mem_foldl_autosaveStep fm (formEntries fm) [] f.name f.value hmem hok

/-- C8: the payload persisted by `saveFormData` is the serialisation of
`autosaveData`; every entry of it belongs to a field whose first matching
element is not a file input (so file-type fields are never persisted, even
when populated), and every named field whose first matching element is not
a file input contributes an entry under its name. -/
theorem autosave_excludes_file_fields (fm : Form) (formId : String) (st : Storage) :
    storeGet (saveFormData fm formId st) ("form_" ++ formId)
      = some (encodePayload (autosaveData fm)) ∧
    (∀ kv ∈ autosaveData fm, ∀ g, findField fm kv.1 = some g → g.type ≠ "file") ∧
    (∀ f ∈ fm.fields, f.name ≠ "" →
      (∀ g, findField fm f.name = some g → g.type ≠ "file") →
      ∃ w, (f.name, w) ∈ autosaveData fm) := by
  refine ⟨storeGet_storeSet st _ _, ?_, ?_⟩
  · intro kv hkv g hg
    have hok := autosaveData_only_nonfile fm kv hkv
    rw [fileOk, hg] at hok
    simpa using hok
  · intro f hf hn hng
    apply autosaveData_collects fm f hf hn
    have hsome : (findField fm f.name).isSome := by
      rw [findField]
      exact List.find?_isSome.mpr ⟨f, hf, by simp⟩
    obtain ⟨g, hg⟩ := Option.isSome_iff_exists.mp hsome
    have hne := hng g hg
    rw [fileOk, hg]
    simpa using hne

end Rentz
